/- Verification development for the loki-f diagnostic toolkit: a shallow
embedding of the boltdb index query engine (src/bolt.rs) and of the chunk
codec (src/ty.rs), together with theorems about the claims of spec.md.

Rust `String` values are modeled as `List Char`.  For valid UTF-8 data the
byte-wise lexicographic order and prefix relation used by Rust coincide with
the character-wise ones (UTF-8 is order-preserving and self-synchronizing),
so `List Char` with character-wise comparison is a faithful model. -/
import Mathlib

set_option maxRecDepth 10000

/-- Rust string literals, as lists of characters. -/
def str (s : String) : List Char := s.data

/-- Rust string values. -/
abbrev Str := List Char

/-- Byte-lexicographic `<` on Rust strings (`String: PartialOrd`), modeled
character-wise. -/
def lexLt : Str → Str → Bool
  | [], [] => false
  | [], _ :: _ => true
  | _ :: _, [] => false
  | a :: s, b :: t => if a < b then true else if b < a then false else lexLt s t

/-- Rust `str::split(sep)` for a one-character separator: `"a\x00b"` splits
into `["a", "b"]`, the empty string into `[""]`, `"a\x00"` into `["a", ""]`. -/
def splitOnChar (sep : Char) : Str → List Str
  | [] => [[]]
  | c :: rest =>
    match splitOnChar sep rest with
    | [] => [[]]
    | g :: gs => if c = sep then [] :: g :: gs else (c :: g) :: gs

/-- Decimal rendering of a `Nat` (Rust `{}` for unsigned integers). -/
def natToChars (n : Nat) : Str := Nat.toDigits 10 n

/-- Decimal rendering of an `Int` (Rust `{}` for `i64`). -/
def intToChars (i : Int) : Str :=
  if i < 0 then '-' :: natToChars (-i).toNat else natToChars i.toNat

/-- Rust `{:02}` formatting: decimal, zero-padded to at least two digits. -/
def fmt02 (n : Nat) : Str :=
  let ds := natToChars n
  if ds.length < 2 then '0' :: ds else ds

/-- Rust `{:02x}` formatting: lowercase hexadecimal, zero-padded to at least
two digits. -/
def fmt02x (n : Nat) : Str :=
  let ds := Nat.toDigits 16 n
  if ds.length < 2 then '0' :: ds else ds

/-- The sixteen lowercase hexadecimal digit characters. -/
def lowerHexDigits : Str := str ("0123456789abcdef")

/-- Numeric value of one hexadecimal digit character (either case), as used
by Rust `from_str_radix(_, 16)`; `none` on a non-digit. -/
def hexDigitVal (c : Char) : Option Nat :=
  if '0' ≤ c ∧ c ≤ '9' then some (c.toNat - Char.toNat '0')
  else if 'a' ≤ c ∧ c ≤ 'f' then some (c.toNat - Char.toNat 'a' + 10)
  else if 'A' ≤ c ∧ c ≤ 'F' then some (c.toNat - Char.toNat 'A' + 10)
  else none

/-- Value of a string of hexadecimal digits, most significant first; `none`
if any character is not a hexadecimal digit. -/
def hexDigitsVal : Str → Option Nat
  | [] => some 0
  | c :: rest =>
    match hexDigitVal c, hexDigitsVal rest with
    | some d, some v => some (d * 16 ^ rest.length + v)
    | _, _ => none

/-- Big-endian value of a hexadecimal string, for stating round-trip facts
about `encode_time` (digits folded most-significant first). -/
def hexVal (s : Str) : Nat :=
  s.foldl (fun acc c => acc * 16 + (hexDigitVal c).getD 0) 0

/- ===================== SHA-256 (the `ring` digest) ======================
Modeled from the spec: the production source hashes the label value with
SHA-256 through the external `ring` crate; that crate is not part of this
repository, so FIPS 180-4 SHA-256 is implemented here directly. -/

/-- 32-bit rotate right. -/
def rotr32 (n x : Nat) : Nat :=
  ((x >>> n) ||| ((x <<< (32 - n)) % 4294967296)) % 4294967296

/-- SHA-256 round constants. -/
def sha256K : List Nat :=
  [1116352408, 1899447441, 3049323471, 3921009573, 961987163,
   1508970993, 2453635748, 2870763221, 3624381080, 310598401,
   607225278, 1426881987, 1925078388, 2162078206, 2614888103,
   3248222580, 3835390401, 4022224774, 264347078, 604807628,
   770255983, 1249150122, 1555081692, 1996064986, 2554220882,
   2821834349, 2952996808, 3210313671, 3336571891, 3584528711,
   113926993, 338241895, 666307205, 773529912, 1294757372,
   1396182291, 1695183700, 1986661051, 2177026350, 2456956037,
   2730485921, 2820302411, 3259730800, 3345764771, 3516065817,
   3600352804, 4094571909, 275423344, 430227734, 506948616,
   659060556, 883997877, 958139571, 1322822218, 1537002063,
   1747873779, 1955562222, 2024104815, 2227730452, 2361852424,
   2428436474, 2756734187, 3204031479, 3329325298]

/-- SHA-256 big Σ₀. -/
def bigSigma0 (x : Nat) : Nat := rotr32 2 x ^^^ rotr32 13 x ^^^ rotr32 22 x

/-- SHA-256 big Σ₁. -/
def bigSigma1 (x : Nat) : Nat := rotr32 6 x ^^^ rotr32 11 x ^^^ rotr32 25 x

/-- SHA-256 small σ₀. -/
def smallSigma0 (x : Nat) : Nat := rotr32 7 x ^^^ rotr32 18 x ^^^ (x >>> 3)

/-- SHA-256 small σ₁. -/
def smallSigma1 (x : Nat) : Nat := rotr32 17 x ^^^ rotr32 19 x ^^^ (x >>> 10)

/-- SHA-256 message padding: append `0x80`, zeros, and the 64-bit big-endian
bit length, reaching a multiple of 64 bytes. -/
def shaPad (msg : List Nat) : List Nat :=
  let l := msg.length
  let k := (64 - (l + 9) % 64) % 64
  let bits := 8 * l
  msg ++ 0x80 :: List.replicate k 0 ++
    [bits / 2 ^ 56 % 256, bits / 2 ^ 48 % 256, bits / 2 ^ 40 % 256,
     bits / 2 ^ 32 % 256, bits / 2 ^ 24 % 256, bits / 2 ^ 16 % 256,
     bits / 2 ^ 8 % 256, bits % 256]

/-- Group a byte list into big-endian 32-bit words (leftover bytes dropped;
padded input has none). -/
def toWordsBE : List Nat → List Nat
  | a :: b :: c :: d :: rest =>
    (a * 16777216 + b * 65536 + c * 256 + d) :: toWordsBE rest
  | _ => []

/-- Extend the 16 message words to 64 schedule words; `ws` is kept reversed
(most recent word first). -/
def extendWords : Nat → List Nat → List Nat
  | 0, ws => ws.reverse
  | n + 1, ws =>
    let w := (smallSigma1 (ws.getD 1 0) + ws.getD 6 0 +
              smallSigma0 (ws.getD 14 0) + ws.getD 15 0) % 4294967296
    extendWords n (w :: ws)

/-- The running SHA-256 hash state. -/
structure Sha256State where
  sa : Nat
  sb : Nat
  sc : Nat
  sd : Nat
  se : Nat
  sf : Nat
  sg : Nat
  sh : Nat
deriving DecidableEq, Repr

/-- SHA-256 initial hash value. -/
def sha256Init : Sha256State :=
  ⟨1779033703, 3144134277, 1013904242, 2773480762,
   1359893119, 2600822924, 528734635, 1541459225⟩

/-- One SHA-256 round. -/
def sha256Round (st : Sha256State) (kw : Nat × Nat) : Sha256State :=
  let t1 := (st.sh + bigSigma1 st.se + ((st.se &&& st.sf) ^^^ ((4294967295 - st.se % 4294967296) &&& st.sg)) +
             kw.1 + kw.2) % 4294967296
  let t2 := (bigSigma0 st.sa + ((st.sa &&& st.sb) ^^^ (st.sa &&& st.sc) ^^^ (st.sb &&& st.sc))) % 4294967296
  ⟨(t1 + t2) % 4294967296, st.sa, st.sb, st.sc,
   (st.sd + t1) % 4294967296, st.se, st.sf, st.sg⟩

/-- Compress one 64-byte block into the state. -/
def sha256Block (st : Sha256State) (block : List Nat) : Sha256State :=
  let w16 := toWordsBE block
  let w := extendWords 48 w16.reverse
  let r := (sha256K.zip w).foldl sha256Round st
  ⟨(st.sa + r.sa) % 4294967296, (st.sb + r.sb) % 4294967296,
   (st.sc + r.sc) % 4294967296, (st.sd + r.sd) % 4294967296,
   (st.se + r.se) % 4294967296, (st.sf + r.sf) % 4294967296,
   (st.sg + r.sg) % 4294967296, (st.sh + r.sh) % 4294967296⟩

/-- Split into 64-byte blocks (fuel-based so that it reduces in the kernel). -/
def chunk64Go : Nat → List Nat → List (List Nat)
  | 0, _ => []
  | _, [] => []
  | fuel + 1, x :: rest => (x :: rest.take 63) :: chunk64Go fuel (rest.drop 63)

/-- Split a byte list into 64-byte blocks. -/
def chunk64 (l : List Nat) : List (List Nat) := chunk64Go l.length l

/-- Big-endian bytes of a 32-bit word. -/
def wordBE (w : Nat) : List Nat :=
  [w / 16777216 % 256, w / 65536 % 256, w / 256 % 256, w % 256]

/-- The 32 digest bytes of a final state. -/
def Sha256State.bytes (s : Sha256State) : List Nat :=
  wordBE s.sa ++ wordBE s.sb ++ wordBE s.sc ++ wordBE s.sd ++
  wordBE s.se ++ wordBE s.sf ++ wordBE s.sg ++ wordBE s.sh

/-- SHA-256 of a byte string. -/
def sha256 (msg : List Nat) : List Nat :=
  ((chunk64 (shaPad msg)).foldl sha256Block sha256Init).bytes

/-- UTF-8 encoding of one character. -/
def utf8Char (c : Char) : List Nat :=
  let n := c.toNat
  if n < 0x80 then [n]
  else if n < 0x800 then [0xC0 + n / 64, 0x80 + n % 64]
  else if n < 0x10000 then [0xE0 + n / 4096, 0x80 + n / 64 % 64, 0x80 + n % 64]
  else [0xF0 + n / 262144, 0x80 + n / 4096 % 64, 0x80 + n / 64 % 64, 0x80 + n % 64]

/-- UTF-8 bytes of a Rust string (`value.as_ref()` in `calc_queries`). -/
def utf8Bytes (s : Str) : List Nat := s.flatMap utf8Char

/- ===================== base64 STANDARD_NO_PAD ======================
Modeled from the spec: the production source encodes the SHA-256 digest with
the external `base64` crate's `STANDARD_NO_PAD` configuration (standard
alphabet, no `=` padding). -/

/-- The standard base64 alphabet. -/
def b64Alphabet : Str :=
  str ("ABCDEFGHIJKLMNOPQRSTUVWXYZabcdefghijklmnopqrstuvwxyz0123456789+/")

/-- Character for one 6-bit group. -/
def b64Char (n : Nat) : Char := b64Alphabet.getD n 'A'

/-- Standard-alphabet base64 without padding, three input bytes at a time. -/
def base64Chars : List Nat → Str
  | a :: b :: c :: rest =>
    b64Char (a / 4 % 64) :: b64Char ((a % 4) * 16 + b / 16) ::
    b64Char ((b % 16) * 4 + c / 64) :: b64Char (c % 64) :: base64Chars rest
  | [a, b] =>
    [b64Char (a / 4 % 64), b64Char ((a % 4) * 16 + b / 16), b64Char ((b % 16) * 4)]
  | [a] => [b64Char (a / 4 % 64), b64Char ((a % 4) * 16)]
  | [] => []

/-- `base64::encode_config(_, STANDARD_NO_PAD)`. -/
def base64NoPad (l : List Nat) : Str := base64Chars l

/- ===================== src/bolt.rs : data model ====================== -/

/-- A `label=value` equality predicate (src/common.rs `KeyValue`). -/
structure KeyValue where
  key : Str
  value : Str
deriving DecidableEq, Repr

/-- A day bucket (src/bolt.rs `Bucket`); the source's `from` field is named
`from_ms` here because `from` is a Lean keyword. -/
structure Bucket where
  from_ms : Nat
  through : Nat
  table_name : Str
  hash_key : Str
  bucket_size : Nat
deriving DecidableEq, Repr

/-- An index query (src/bolt.rs `Query`). -/
structure Query where
  table_name : Str
  hash_value : Str
  range_value_prefix : Str
  range_value_start : Str
  value_equal : Str
deriving DecidableEq, Repr

/-- An index result entry (src/bolt.rs `Entry`). -/
structure Entry where
  table_name : Str
  hash_value : Str
  range_value : Str
  value : Str
deriving DecidableEq, Repr

/-- A chunk reference (src/bolt.rs `ChunkRef`); the source's `from` field is
named `from_ms` here because `from` is a Lean keyword. -/
structure ChunkRef where
  user_id : Str
  fingerprint : Nat
  from_ms : Int
  to_ms : Int
  checksum : Nat
deriving DecidableEq, Repr

/- ===================== src/bolt.rs : get_buckets ======================
The start/end times are taken as the pair of millisecond timestamps the
source obtains from chrono: `timestamp()` is the floor of the instant in
whole seconds (`Int.fdiv startMs 1000`) and `timestamp_millis()` is the
instant in milliseconds.  Rust `i64` division truncates toward zero
(`Int.tdiv`); the `as u32` casts wrap modulo `2^32`. -/

/-- src/bolt.rs `get_buckets`, lines 198-236 (the bucket loop; start/end come
in as millisecond timestamps). -/
def get_buckets (tenant : Str) (startMs endMs : Int) : List Bucket :=
  let from_day := Int.tdiv (Int.fdiv startMs 1000) 86400
  let to_day := Int.tdiv (Int.fdiv endMs 1000) 86400
  (List.range (to_day - from_day + 1).toNat).map fun (i : Nat) =>
    let d : Int := from_day + (i : Int)
    let relative_from := max 0 (startMs - d * 86400000)
    let relative_through := min 86400000 (endMs - d * 86400000)
    { from_ms := (relative_from % 4294967296).toNat
      through := (relative_through % 4294967296).toNat
      table_name := str ("index_") ++ intToChars d
      hash_key := tenant ++ str (":d") ++ intToChars d
      bucket_size := 86400000 }

/- ===================== src/bolt.rs : calc_queries ====================== -/

/-- src/bolt.rs `calc_queries`, lines 238-264. -/
def calc_queries (shard : Nat) (buckets : List Bucket) (kv : KeyValue) : List Query :=
  buckets.flatMap fun bucket =>
    let hash_val := sha256 (utf8Bytes kv.value)
    let hash_val_encoded := base64NoPad hash_val ++ ['\x00']
    (List.range shard).map fun i =>
      { table_name := bucket.table_name
        hash_value := fmt02 i ++ str (":") ++ bucket.hash_key ++ str (":logs:") ++ kv.key
        range_value_prefix := hash_val_encoded
        range_value_start := []
        value_equal := kv.value }

/- ============== src/bolt.rs : parse_chunk_time_range_value ============== -/

/-- Error kinds of `parse_chunk_time_range_value`. -/
inductive RangeValueError where
  | malformed (len : Nat) : RangeValueError
  | unknownKind (kind : Str) : RangeValueError
deriving DecidableEq, Repr

/-- src/bolt.rs `parse_chunk_time_range_value`, lines 271-293. -/
def parse_chunk_time_range_value (range_value : Str) : Except RangeValueError Str :=
  let components := splitOnChar '\x00' range_value
  if components.length ≠ 5 then .error (.malformed components.length)
  else
    let c3 := components.getD 3 []
    if c3 = str ("3") then .ok (components.getD 2 [])
    else if c3 = str ("8") then .ok (components.getD 1 [])
    else .error (.unknownKind c3)

/- ============ src/bolt.rs : query execution (C8 executor) ============ -/

/-- The boltdb `index` bucket, as the lexicographically ordered key/value
pairs its iterator yields (`value = none` models a nested-bucket marker). -/
abbrev IndexBucket := List (Str × Option Str)

/-- src/bolt.rs `filter_entries` predicate body, lines 140-157 (the chain of
early returns; `true` means the entry is kept). -/
def entryKeep (query : Query) (x : Entry) : Bool :=
  if 0 < query.range_value_prefix.length ∧
      ¬ (List.isPrefixOf query.range_value_prefix x.range_value = true) then false
  else if 0 < query.range_value_start.length ∧
      lexLt x.range_value query.range_value_start = true then false
  else if 0 < query.value_equal.length ∧ query.value_equal ≠ x.value then false
  else true

/-- src/bolt.rs `filter_entries`, lines 140-157. -/
def filter_entries (entries : List Entry) (query : Query) : List Entry :=
  entries.filter fun x => entryKeep query x

/-- src/bolt.rs `query_pages`, lines 323-365: per query, scan the bucket for
keys beginning with the composed start prefix, apply the in-scan value
filter, then `filter_entries`. -/
def query_pages (bucket : IndexBucket) (queries : List Query) : List Entry :=
  queries.flatMap fun query =>
    let prefix_len := query.hash_value.length + 1
    let start :=
      if 0 < query.range_value_prefix.length then
        query.hash_value ++ '\x00' :: query.range_value_prefix
      else if 0 < query.range_value_start.length then
        query.hash_value ++ ['\x00']
      else
        query.hash_value ++ ['\x00']
    let sub_entries := bucket.filterMap fun kv =>
      if List.isPrefixOf start kv.1 then
        match kv.2 with
        | none => none
        | some v =>
          if 0 < query.value_equal.length ∧ v ≠ query.value_equal then none
          else some { table_name := query.table_name
                      hash_value := start
                      range_value := kv.1.drop prefix_len
                      value := v }
      else none
    filter_entries sub_entries query

/-- src/bolt.rs `do_broad_queries`, lines 295-304: each query is rebuilt with
an empty `range_value_prefix` before `query_pages` runs. -/
def do_broad_queries (bucket : IndexBucket) (queries : List Query) : List Entry :=
  query_pages bucket (queries.map fun q =>
    { table_name := q.table_name
      hash_value := q.hash_value
      range_value_prefix := []
      range_value_start := q.range_value_start
      value_equal := q.value_equal })

/-- src/bolt.rs `get_entries_from_queries`, lines 311-321. -/
def get_entries_from_queries (disable_broad_queries : Bool) (bucket : IndexBucket)
    (queries : List Query) : List Entry :=
  if ¬ disable_broad_queries then do_broad_queries bucket queries
  else query_pages bucket queries

/- ============ src/bolt.rs : inspect's series-id accumulator ============ -/

/-- One step of the accumulator update in `inspect`, src/bolt.rs lines 83-88:
an empty accumulator is replaced by the incoming set, a non-empty one is
intersected with it. -/
def combineSeriesIds (series_ids unique_set : Finset Str) : Finset Str :=
  if series_ids = ∅ then unique_set else series_ids ∩ unique_set

/-- The accumulator loop of `inspect` over the per-predicate deduplicated
series-id sets, starting from the empty set. -/
def inspectSeriesIds (sets : List (Finset Str)) : Finset Str :=
  sets.foldl combineSeriesIds ∅

/- ============ src/bolt.rs : chunk-reference parsing and filter ============ -/

/-- Failure modes of the chunk-id parsing loop in `inspect`: an index/unwrap
panic on a malformed shape, or a `from_str_radix` error propagated by `?`. -/
inductive ChunkIdError where
  | panicked : ChunkIdError
  | parseInt : ChunkIdError
deriving DecidableEq, Repr

/-- Rust `u64/u32::from_str_radix(s, 16)`: optional leading `+`, then at
least one hexadecimal digit, value below `bound`. -/
def parseRadix16U (bound : Nat) (s : Str) : Option Nat :=
  let digits := match s with
    | '+' :: rest => rest
    | other => other
  match digits, hexDigitsVal digits with
  | _ :: _, some v => if v < bound then some v else none
  | _, _ => none

/-- Rust `i64::from_str_radix(s, 16)`: optional sign, then at least one
hexadecimal digit, value within the `i64` range. -/
def parseRadix16I (s : Str) : Option Int :=
  match s with
  | '-' :: rest =>
    match rest, hexDigitsVal rest with
    | _ :: _, some v => if v ≤ 9223372036854775808 then some (-(v : Int)) else none
    | _, _ => none
  | _ =>
    let digits := match s with
      | '+' :: rest => rest
      | other => other
    match digits, hexDigitsVal digits with
    | _ :: _, some v => if v < 9223372036854775808 then some ((v : Int)) else none
    | _, _ => none

/-- One iteration of the chunk-id parsing loop in `inspect`, src/bolt.rs
lines 114-122: split on `/` (two `unwrap`s), split the tail on `:`, parse
the four hexadecimal fields. -/
def parseChunkRefStep (r : Str) : Except ChunkIdError ChunkRef :=
  match splitOnChar '/' r with
  | tenant_id :: segs :: _ =>
    let parts := splitOnChar ':' segs
    if parts.length < 4 then .error .panicked
    else
      match parseRadix16U 18446744073709551616 (parts.getD 0 []),
            parseRadix16I (parts.getD 1 []), parseRadix16I (parts.getD 2 []),
            parseRadix16U 4294967296 (parts.getD 3 []) with
      | some fingerprint, some fromv, some tov, some checksum =>
        .ok { user_id := tenant_id, fingerprint := fingerprint,
              from_ms := fromv, to_ms := tov, checksum := checksum }
      | _, _, _, _ => .error .parseInt
  | _ => .error .panicked

/-- The chunk-reference loop of `inspect`, src/bolt.rs lines 113-133: parse
each entry, `continue` past the ones outside `[startMs, endMs]`, keep the
rest in order; the first parse failure aborts. -/
def chunkRefLoop : List Str → Int → Int → Except ChunkIdError (List ChunkRef)
  | [], _, _ => .ok []
  | r :: rest, startMs, endMs =>
    match parseChunkRefStep r with
    | .error e => .error e
    | .ok c =>
      if c.to_ms < startMs ∨ c.from_ms > endMs then chunkRefLoop rest startMs endMs
      else
        match chunkRefLoop rest startMs endMs with
        | .error e => .error e
        | .ok tail => .ok (c :: tail)

/- ============ src/bolt.rs : calc_queries_for_serires ============ -/

/-- src/bolt.rs `encode_time`, lines 386-394: big-endian lowercase-hex
representation of a `u32`. -/
def encode_time (from_ms : Nat) : Str :=
  fmt02x ((from_ms &&& 0xff000000) >>> 24) ++ fmt02x ((from_ms &&& 0x00ff0000) >>> 16) ++
  fmt02x ((from_ms &&& 0x0000ff00) >>> 8) ++ fmt02x (from_ms &&& 0x000000ff)

/-- src/bolt.rs `calc_queries_for_serires`, lines 367-383. -/
def calc_queries_for_serires (buckets : List Bucket) (series_ids : List Str) : List Query :=
  buckets.flatMap fun bucket =>
    series_ids.map fun id =>
      let encode_from_bytes := encode_time bucket.from_ms
      { table_name := bucket.table_name
        hash_value := bucket.hash_key ++ str (":") ++ id
        range_value_prefix := []
        range_value_start := encode_from_bytes
        value_equal := [] }

/- ===================== src/ty.rs : varints and block entries ==============
The varint reader comes from the external `integer-encoding` crate:
little-endian base-128 with the high bit as continuation, and zigzag
encoding for signed integers (pinned by the repository's own
`test_parse_unordered_block` fixture, whose nine-byte varint only decodes to
the asserted date under zigzag). -/

/-- Unsigned LEB128 varint: returns the decoded value and remaining bytes,
`none` when the stream ends inside the varint. -/
def readVarintU : List Nat → Option (Nat × List Nat)
  | [] => none
  | b :: rest =>
    if b < 128 then some (b, rest)
    else
      match readVarintU rest with
      | none => none
      | some (v, r) => some ((b - 128) + 128 * v, r)

/-- Zigzag decoding of a `u64` into an `i64` value. -/
def zigzag (u : Nat) : Int :=
  if u % 2 = 0 then ((u / 2 : Nat) : Int) else -((u / 2 : Nat) : Int) - 1

/-- `read_varint::<i64>()` of the `integer-encoding` crate: unsigned varint
reduced to the `u64` range, then zigzag-decoded. -/
def readVarintI64 (bytes : List Nat) : Option (Int × List Nat) :=
  match readVarintU bytes with
  | none => none
  | some (v, r) => some (zigzag (v % 18446744073709551616), r)

/-- chrono `NaiveDateTime`, as whole seconds since the Unix epoch plus a
sub-second nanosecond component. -/
structure NaiveDateTime where
  secs : Int
  nsecs : Nat
deriving DecidableEq, Repr

/-- chrono `NaiveDateTime::from_timestamp`. -/
def NaiveDateTime.from_timestamp (secs : Int) (nsecs : Nat) : NaiveDateTime :=
  ⟨secs, nsecs⟩

/-- The instant a `NaiveDateTime` denotes, in nanoseconds since the epoch. -/
def nanosDenoted (t : NaiveDateTime) : Int := t.secs * 1000000000 + t.nsecs

/-- src/ty.rs `UnorderedBlockEntry` (the `line` is kept as raw bytes; the
source's `from_utf8_lossy` only affects presentation). -/
structure UnorderedBlockEntry where
  time : NaiveDateTime
  line : List Nat
deriving DecidableEq, Repr

/-- src/ty.rs `UnorderedBlockEntry::read_options`, lines 31-45: varint
timestamp in nanoseconds, varint length, then the line bytes; the time is
built with `NaiveDateTime::from_timestamp(ts / 1e9, 0)` where `/` is Rust's
truncating `i64` division. -/
def readUnorderedBlockEntry (bytes : List Nat) :
    Option (UnorderedBlockEntry × List Nat) :=
  match readVarintI64 bytes with
  | none => none
  | some (ts, r1) =>
    match readVarintU r1 with
    | none => none
    | some (sz, r2) =>
      if r2.length < sz then none
      else some ({ time := NaiveDateTime.from_timestamp (Int.tdiv ts 1000000000) 0
                   line := r2.take sz }, r2.drop sz)

/-- src/ty.rs `UnorderedBlock::read_options`, lines 47-63: `n` consecutive
entries. -/
def readUnorderedBlock : List Nat → Nat → Option (List UnorderedBlockEntry × List Nat)
  | bytes, 0 => some ([], bytes)
  | bytes, n + 1 =>
    match readUnorderedBlockEntry bytes with
    | none => none
    | some (e, r) =>
      match readUnorderedBlock r n with
      | none => none
      | some (es, r') => some (e :: es, r')

/- ===================== src/ty.rs : encoding dispatch ====================== -/

/-- src/ty.rs `EncType`, lines 132-145: the ten encoding tags `0..=9`. -/
inductive EncType where
  | EncNone | EncGZIP | EncDumb | EncLZ4_64k | EncSnappy
  | EncLZ4_256k | EncLZ4_1M | EncLZ4_4M | EncFlate | EncZstd
deriving DecidableEq, Repr

/-- `EncType::from_u8` (via `num_traits::FromPrimitive`): `none` for any
byte outside `0..=9`. -/
def EncType.from_u8 : Nat → Option EncType
  | 0 => some .EncNone
  | 1 => some .EncGZIP
  | 2 => some .EncDumb
  | 3 => some .EncLZ4_64k
  | 4 => some .EncSnappy
  | 5 => some .EncLZ4_256k
  | 6 => some .EncLZ4_1M
  | 7 => some .EncLZ4_4M
  | 8 => some .EncFlate
  | 9 => some .EncZstd
  | _ => none

/-- The three external decompression codecs (flate2, snap, zstd), abstracted
as partial byte-stream transformers; `none` models a codec I/O error. -/
structure Codecs where
  gzip : List Nat → Option (List Nat)
  snappy : List Nat → Option (List Nat)
  zstd : List Nat → Option (List Nat)

/-- Error kinds surfaced by `decompress`. -/
inductive DecompressError where
  | notSupported (e : EncType)
  | codecFailure
  | blockParseFailure
deriving DecidableEq, Repr

/-- src/ty.rs `decompress`, lines 207-245: dispatch on the encoding tag
(gzip, framed snappy and zstd are implemented; every other tag returns the
`not supported` error), then decode the decompressed bytes as an unordered
block of `num_entries` entries. -/
def decompress (c : Codecs) (vec : List Nat) (enc_type : EncType)
    (num_entries : Nat) : Except DecompressError (List UnorderedBlockEntry) :=
  let decoded : Except DecompressError (List Nat) :=
    match enc_type with
    | .EncGZIP =>
      match c.gzip vec with
      | some s => .ok s
      | none => .error .codecFailure
    | .EncSnappy =>
      match c.snappy vec with
      | some s => .ok s
      | none => .error .codecFailure
    | .EncZstd =>
      match c.zstd vec with
      | some s => .ok s
      | none => .error .codecFailure
    | e => .error (.notSupported e)
  match decoded with
  | .error er => .error er
  | .ok s =>
    match readUnorderedBlock s num_entries with
    | some (b, _) => .ok b
    | none => .error .blockParseFailure

/-- Outcome of the encoding-tag step of `ChunkData::read_options`,
src/ty.rs lines 182-183: `EncType::from_u8(et).expect("invalid enc type")`
panics on a byte outside `0..=9` instead of returning an error. -/
inductive TagStep where
  | panicked : TagStep
  | proceed : EncType → TagStep
deriving DecidableEq, Repr

/-- The encoding-tag step of `ChunkData::read_options`, src/ty.rs lines
182-183. -/
def chunkTagStep (et : Nat) : TagStep :=
  match EncType.from_u8 et with
  | none => .panicked
  | some t => .proceed t

/- ===================== src/ty.rs : Chunk header framing ================= -/

/-- Outcome of the header framing step of `Chunk::read_options`, src/ty.rs
lines 292-306.  `underflow` is the `head_sz - 4` usize underflow reached
when the leading big-endian `u32` is below 4 (`vec![0; head_sz - 4]` with a
wrapped length): control never returns an error value to the caller there.
`ioError` covers a short read (`read_be`/`read_exact` failing). -/
inductive ChunkHeadOutcome where
  | ioError : ChunkHeadOutcome
  | underflow : ChunkHeadOutcome
  | ok : List Nat → List Nat → ChunkHeadOutcome
deriving DecidableEq, Repr

/-- The header framing step of `Chunk::read_options`, src/ty.rs lines
297-299: read a big-endian `u32` `head_sz`, then read exactly `head_sz - 4`
header bytes. -/
def chunkReadHeaderBytes (input : List Nat) : ChunkHeadOutcome :=
  match input with
  | b0 :: b1 :: b2 :: b3 :: rest =>
    let head_sz := b0 * 16777216 + b1 * 65536 + b2 * 256 + b3
    if head_sz < 4 then .underflow
    else if rest.length < head_sz - 4 then .ioError
    else .ok (rest.take (head_sz - 4)) (rest.drop (head_sz - 4))
  | _ => .ioError

/- ===================== per-claim concrete inputs ====================== -/

/-- Concrete index bucket for claim C1: two sorted keys under the same hash
prefix, with distinct range-value prefixes. -/
def c1Bucket : IndexBucket :=
  [(str ("h") ++ '\x00' :: str ("A1"), some (str ("v"))),
   (str ("h") ++ '\x00' :: str ("B1"), some (str ("v")))]

/-- Concrete query for claim C1, with a non-empty `range_value_prefix`. -/
def c1Query : Query := ⟨str ("t"), str ("h"), str ("A"), [], []⟩

/-- Concrete codec environment for claim C3's witness. -/
def c3Codecs : Codecs := ⟨fun _ => some [], fun _ => some [], fun _ => some []⟩

/-- Concrete bucket for claim C6's witness. -/
def c6Bucket : Bucket := ⟨0, 0, str ("index_2"), str ("fake:d2"), 86400000⟩

/-- Concrete bucket for claim C8's witness. -/
def c8Bucket : Bucket := ⟨305419896, 0, str ("index_1"), str ("fake:d1"), 86400000⟩

/- ===================== helper lemmas ====================== -/

/-- Rebuilding every query of a list with an empty `range_value_prefix` is
the identity when the prefixes were already empty. -/
theorem broad_rebuild_id (queries : List Query)
    (hp : ∀ q ∈ queries, q.range_value_prefix = []) :
    (queries.map fun q =>
      { table_name := q.table_name
        hash_value := q.hash_value
        range_value_prefix := ([] : Str)
        range_value_start := q.range_value_start
        value_equal := q.value_equal }) = queries := by
  induction queries with
  | nil => rfl
  | cons q qs ih =>
    have hq : q.range_value_prefix = [] := hp q (by simp)
    have h1 : ({ table_name := q.table_name
                 hash_value := q.hash_value
                 range_value_prefix := ([] : Str)
                 range_value_start := q.range_value_start
                 value_equal := q.value_equal } : Query) = q := by
      cases q
      simp_all
    simp only [List.map_cons, h1]
    rw [ih (fun p hp' => hp p (by simp [hp']))]

/- ===================== claim theorems ====================== -/

/-- C1 (amended): when every query's `range_value_prefix` is empty, the
broad strategy (`disable_broad_queries = false`) and the narrow strategy
return the same multiset of entries on any index bucket whose iterator
yields its pairs in lexicographic order.  (With a non-empty
`range_value_prefix` the two strategies differ: see the counterexample.) -/
theorem c1_broad_eq_narrow (bucket : IndexBucket) (queries : List Query)
    (hsorted : List.Pairwise (fun a b => lexLt a.1 b.1 = true) bucket)
    (hp : ∀ q ∈ queries, q.range_value_prefix = []) :
    (↑(get_entries_from_queries false bucket queries) : Multiset Entry) =
      ↑(get_entries_from_queries true bucket queries) := by
  unfold get_entries_from_queries do_broad_queries
  rw [broad_rebuild_id queries hp]
  simp

/-- C1 witness: the amended theorem applied to a one-key bucket and a
prefix-free query. -/
theorem c1_witness :
    List.Pairwise (fun a b => lexLt a.1 b.1 = true)
      [((str ("k") ++ ['\x00']), some (str ("v")))] ∧
    (∀ q ∈ [(⟨str ("t"), str ("k"), [], [], []⟩ : Query)], q.range_value_prefix = []) ∧
    (↑(get_entries_from_queries false [((str ("k") ++ ['\x00']), some (str ("v")))]
        [⟨str ("t"), str ("k"), [], [], []⟩]) : Multiset Entry) =
      ↑(get_entries_from_queries true [((str ("k") ++ ['\x00']), some (str ("v")))]
        [⟨str ("t"), str ("k"), [], [], []⟩]) :=
  ⟨by decide, by decide, c1_broad_eq_narrow _ _ (by decide) (by decide)⟩

/-- C1 counterexample: on a lexicographically sorted bucket and a query with
a non-empty `range_value_prefix`, the broad strategy returns a different
entry multiset than the narrow strategy (`do_broad_queries` erases
`range_value_prefix`, so the prefix filter is never applied and the recorded
`hash_value` omits the prefix). -/
theorem c1_counterexample :
    List.Pairwise (fun a b => lexLt a.1 b.1 = true) c1Bucket ∧
    ¬ ((↑(get_entries_from_queries false c1Bucket [c1Query]) : Multiset Entry) =
        ↑(get_entries_from_queries true c1Bucket [c1Query])) := by
  constructor
  · decide
  · decide

/-- C2: the accumulator loop of `inspect` is not invariant under reordering
of the predicates: the code replaces the accumulator by the incoming set
whenever the accumulator is empty — also after a mid-loop empty
intersection — so the per-predicate sets `{a}, {b}, {a}` yield `{a}` in one
order and `∅` in a permuted order. -/
theorem c2_order_dependent :
    List.Perm [({str ("a")} : Finset Str), {str ("b")}, {str ("a")}]
      [({str ("a")} : Finset Str), {str ("a")}, {str ("b")}] ∧
    inspectSeriesIds [({str ("a")} : Finset Str), {str ("b")}, {str ("a")}] = {str ("a")} ∧
    inspectSeriesIds [({str ("a")} : Finset Str), {str ("a")}, {str ("b")}] = ∅ ∧
    ({str ("a")} : Finset Str) ≠ ∅ := by
  refine ⟨?_, ?_, ?_, ?_⟩ <;> decide

/-- C3 (amended): `decompress` dispatches gzip, framed snappy and zstd to
their codecs and fails with the unsupported-encoding error on every other
`EncType`; but a tag byte outside `0..=9` makes `EncType::from_u8` return
`None`, which `ChunkData::read_options` turns into a panic (`expect`), not
a returned error. -/
theorem c3_dispatch : ∀ (c : Codecs) (vec : List Nat) (n : Nat),
    (∀ t : EncType, t ≠ .EncGZIP → t ≠ .EncSnappy → t ≠ .EncZstd →
      decompress c vec t n = .error (.notSupported t)) ∧
    (decompress c vec .EncGZIP n =
      (match c.gzip vec with
       | none => .error .codecFailure
       | some s =>
         match readUnorderedBlock s n with
         | some (b, _) => .ok b
         | none => .error .blockParseFailure)) ∧
    (decompress c vec .EncSnappy n =
      (match c.snappy vec with
       | none => .error .codecFailure
       | some s =>
         match readUnorderedBlock s n with
         | some (b, _) => .ok b
         | none => .error .blockParseFailure)) ∧
    (decompress c vec .EncZstd n =
      (match c.zstd vec with
       | none => .error .codecFailure
       | some s =>
         match readUnorderedBlock s n with
         | some (b, _) => .ok b
         | none => .error .blockParseFailure)) ∧
    (∀ b : Nat, 10 ≤ b → EncType.from_u8 b = none ∧ chunkTagStep b = .panicked) ∧
    (∀ b : Nat, b ≤ 9 → ∃ t, EncType.from_u8 b = some t ∧ chunkTagStep b = .proceed t) := by
  intro c vec n
  refine ⟨?_, ?_, ?_, ?_, ?_, ?_⟩
  · intro t h1 h2 h3
    cases t <;> first
      | exact absurd rfl h1
      | exact absurd rfl h2
      | exact absurd rfl h3
      | rfl
  · cases hg : c.gzip vec <;> simp [decompress, hg]
  · cases hg : c.snappy vec <;> simp [decompress, hg]
  · cases hg : c.zstd vec <;> simp [decompress, hg]
  · intro b hb
    obtain ⟨k, rfl⟩ : ∃ k, b = k + 10 := ⟨b - 10, by omega⟩
    exact ⟨rfl, rfl⟩
  · intro b hb
    interval_cases b <;> exact ⟨_, rfl, rfl⟩

/-- C3 witness: the dispatch theorem applied to a concrete codec
environment, an unsupported tag, and concrete tag bytes on both sides of
the `0..=9` boundary. -/
theorem c3_witness :
    decompress c3Codecs [] .EncDumb 0 = .error (.notSupported .EncDumb) ∧
    (10 ≤ 10 ∧ EncType.from_u8 10 = none ∧ chunkTagStep 10 = .panicked) ∧
    (3 ≤ 9 ∧ ∃ t, EncType.from_u8 3 = some t ∧ chunkTagStep 3 = .proceed t) :=
  ⟨(c3_dispatch c3Codecs [] 0).1 .EncDumb (by decide) (by decide) (by decide),
   ⟨by decide, (c3_dispatch c3Codecs [] 0).2.2.2.2.1 10 (by decide)⟩,
   ⟨by decide, (c3_dispatch c3Codecs [] 0).2.2.2.2.2 3 (by decide)⟩⟩

/-- C3 counterexample: for the tag byte 10 (outside the enumeration) the
encoding-tag step of chunk decoding panics; it does not proceed to
`decompress`, so no `UnsupportedEncoding`-kind error is returned to the
caller. -/
theorem c3_counterexample :
    chunkTagStep 10 = TagStep.panicked ∧
    ∀ t : EncType, TagStep.panicked ≠ TagStep.proceed t :=
  ⟨rfl, fun _ h => TagStep.noConfusion h⟩

/-- C4: the block-entry decoder discards sub-second nanoseconds.  The bytes
`[2, 0]` encode the varint timestamp t = 1 ns (zigzag of 2) and an empty
line, but the decoded `time` denotes 0 ns, not 1 ns: the code computes
`NaiveDateTime::from_timestamp(ts / 1e9, 0)`. -/
theorem c4_nanos_discarded :
    readVarintI64 [2, 0] = some (1, [0]) ∧
    (readUnorderedBlockEntry [2, 0]).map (fun p => nanosDenoted p.1.time) = some 0 ∧
    (0 : Int) ≠ 1 := by
  refine ⟨by decide, by decide, by decide⟩

/-- C5: `parse_chunk_time_range_value` returns the malformed-range-value
error exactly when splitting on NUL does not give five components; with five
components it returns `components[2]` when `components[3] = "3"`,
`components[1]` when `components[3] = "8"`, and the unknown-kind error
otherwise. -/
theorem c5_parse_range_value (rv : Str) :
    ((∃ n, parse_chunk_time_range_value rv = .error (.malformed n)) ↔
      (splitOnChar '\x00' rv).length ≠ 5) ∧
    ((splitOnChar '\x00' rv).length = 5 →
      (((splitOnChar '\x00' rv).getD 3 [] = str ("3") →
          parse_chunk_time_range_value rv = .ok ((splitOnChar '\x00' rv).getD 2 [])) ∧
       ((splitOnChar '\x00' rv).getD 3 [] = str ("8") →
          parse_chunk_time_range_value rv = .ok ((splitOnChar '\x00' rv).getD 1 [])) ∧
       ((splitOnChar '\x00' rv).getD 3 [] ≠ str ("3") →
          (splitOnChar '\x00' rv).getD 3 [] ≠ str ("8") →
          parse_chunk_time_range_value rv =
            .error (.unknownKind ((splitOnChar '\x00' rv).getD 3 []))))) := by
  constructor
  · constructor
    · rintro ⟨n, hn⟩
      intro h5
      simp only [parse_chunk_time_range_value] at hn
      rw [if_neg (by omega)] at hn
      split_ifs at hn <;> simp at hn
    · intro h5
      refine ⟨(splitOnChar '\x00' rv).length, ?_⟩
      simp only [parse_chunk_time_range_value]
      rw [if_pos h5]
  · intro h5
    refine ⟨?_, ?_, ?_⟩
    · intro h3
      simp only [parse_chunk_time_range_value]
      rw [if_neg (by omega), if_pos h3]
    · intro h8
      simp only [parse_chunk_time_range_value]
      rw [if_neg (by omega)]
      by_cases h3 : (splitOnChar '\x00' rv).getD 3 [] = str ("3")
      · rw [h3] at h8
        exact absurd h8 (by decide)
      · rw [if_neg h3, if_pos h8]
    · intro h3 h8
      simp only [parse_chunk_time_range_value]
      rw [if_neg (by omega), if_neg h3, if_neg h8]

/-- C5 witness: the characterization applied to a concrete five-component
range value of kind "3". -/
theorem c5_witness :
    (splitOnChar '\x00' (str ("x\x00a\x00b\x003\x00c"))).length = 5 ∧
    (splitOnChar '\x00' (str ("x\x00a\x00b\x003\x00c"))).getD 3 [] = str ("3") ∧
    parse_chunk_time_range_value (str ("x\x00a\x00b\x003\x00c")) =
      .ok ((splitOnChar '\x00' (str ("x\x00a\x00b\x003\x00c"))).getD 2 []) :=
  ⟨by decide, by decide,
   ((c5_parse_range_value (str ("x\x00a\x00b\x003\x00c"))).2 (by decide)).1 (by decide)⟩

/-- C10: the header framing of `Chunk::read_options` is total only when the
leading big-endian `u32` is at least 4: below 4 the unguarded `head_sz - 4`
underflows (no `ShortRead`/`BadHeader` error value is produced), and for
`head_sz ≥ 4` exactly `head_sz - 4` header bytes are read off the stream. -/
theorem c10_chunk_header (b0 b1 b2 b3 : Nat) (rest : List Nat) :
    (b0 * 16777216 + b1 * 65536 + b2 * 256 + b3 < 4 →
      chunkReadHeaderBytes (b0 :: b1 :: b2 :: b3 :: rest) = .underflow) ∧
    (4 ≤ b0 * 16777216 + b1 * 65536 + b2 * 256 + b3 →
      rest.length < b0 * 16777216 + b1 * 65536 + b2 * 256 + b3 - 4 →
      chunkReadHeaderBytes (b0 :: b1 :: b2 :: b3 :: rest) = .ioError) ∧
    (4 ≤ b0 * 16777216 + b1 * 65536 + b2 * 256 + b3 →
      b0 * 16777216 + b1 * 65536 + b2 * 256 + b3 - 4 ≤ rest.length →
      ∃ hdr tail, chunkReadHeaderBytes (b0 :: b1 :: b2 :: b3 :: rest) = .ok hdr tail ∧
        hdr.length = b0 * 16777216 + b1 * 65536 + b2 * 256 + b3 - 4 ∧
        hdr ++ tail = rest) := by
  refine ⟨?_, ?_, ?_⟩
  · intro h
    simp only [chunkReadHeaderBytes]
    rw [if_pos h]
  · intro h4 hshort
    simp only [chunkReadHeaderBytes]
    rw [if_neg (by omega), if_pos hshort]
  · intro h4 hlong
    simp only [chunkReadHeaderBytes]
    rw [if_neg (by omega), if_neg (by omega)]
    refine ⟨_, _, rfl, ?_, List.take_append_drop _ rest⟩
    rw [List.length_take]
    omega

/-- C10 witness: the framing theorem applied to a six-byte header size with
enough bytes available. -/
theorem c10_witness :
    (4 ≤ 0 * 16777216 + 0 * 65536 + 0 * 256 + 6) ∧
    (0 * 16777216 + 0 * 65536 + 0 * 256 + 6 - 4 ≤ ([7, 8, 9] : List Nat).length) ∧
    (∃ hdr tail, chunkReadHeaderBytes (0 :: 0 :: 0 :: 6 :: [7, 8, 9]) = .ok hdr tail ∧
      hdr.length = 0 * 16777216 + 0 * 65536 + 0 * 256 + 6 - 4 ∧
      hdr ++ tail = [7, 8, 9]) :=
  ⟨by decide, by decide, (c10_chunk_header 0 0 0 6 [7, 8, 9]).2.2 (by decide) (by decide)⟩

/- ===================== C6 / C8 helper lemmas ====================== -/

/-- Masking with a shifted byte mask and shifting down extracts a byte. -/
theorem and_mask_shr (f k : Nat) :
    (f &&& ((2 ^ 8 - 1) <<< k)) >>> k = f / 2 ^ k % 2 ^ 8 := by
  apply Nat.eq_of_testBit_eq
  intro i
  rw [Nat.testBit_shiftRight, Nat.testBit_land, Nat.testBit_shiftLeft,
    Nat.testBit_two_pow_sub_one, Nat.testBit_mod_two_pow]
  rw [show f / 2 ^ k = f >>> k from (Nat.shiftRight_eq_div_pow f k).symm,
    Nat.testBit_shiftRight]
  simp [Nat.add_sub_cancel_left, Nat.le_add_right]
  rw [Bool.and_comm]

/-- The four byte extractions of `encode_time`, in div/mod form. -/
theorem encode_time_bytes (f : Nat) :
    (f &&& 0xff000000) >>> 24 = f / 16777216 % 256 ∧
    (f &&& 0x00ff0000) >>> 16 = f / 65536 % 256 ∧
    (f &&& 0x0000ff00) >>> 8 = f / 256 % 256 ∧
    (f &&& 0x000000ff) = f % 256 := by
  have h24 := and_mask_shr f 24
  have h16 := and_mask_shr f 16
  have h8 := and_mask_shr f 8
  have h0 := and_mask_shr f 0
  norm_num at h24 h16 h8 h0
  exact ⟨h24, h16, h8, h0⟩

/-- `fmt02x` of a byte value: two characters, lowercase hexadecimal, and its
value round-trips. -/
theorem fmt02x_byte_spec : ∀ n < 256, (fmt02x n).length = 2 ∧
    hexVal (fmt02x n) = n ∧ ∀ c ∈ fmt02x n, c ∈ lowerHexDigits := by decide

/-- `hexVal` splits over list append. -/
theorem hexVal_foldl (t : Str) (a : Nat) :
    t.foldl (fun acc c => acc * 16 + (hexDigitVal c).getD 0) a =
      a * 16 ^ t.length + t.foldl (fun acc c => acc * 16 + (hexDigitVal c).getD 0) 0 := by
  induction t generalizing a with
  | nil => simp
  | cons c cs ih =>
    simp only [List.foldl_cons, List.length_cons]
    rw [ih (a * 16 + (hexDigitVal c).getD 0), ih (0 * 16 + (hexDigitVal c).getD 0)]
    ring

/-- `hexVal` of an append. -/
theorem hexVal_append (s t : Str) :
    hexVal (s ++ t) = hexVal s * 16 ^ t.length + hexVal t := by
  unfold hexVal
  rw [List.foldl_append, hexVal_foldl]

/-- `encode_time` always yields eight lowercase hexadecimal characters whose
big-endian value is the argument reduced to the `u32` range. -/
theorem encode_time_spec (f : Nat) :
    (encode_time f).length = 8 ∧ (∀ c ∈ encode_time f, c ∈ lowerHexDigits) ∧
    hexVal (encode_time f) = f % 4294967296 := by
  obtain ⟨h24, h16, h8, h0⟩ := encode_time_bytes f
  have b24 : f / 16777216 % 256 < 256 := Nat.mod_lt _ (by norm_num)
  have b16 : f / 65536 % 256 < 256 := Nat.mod_lt _ (by norm_num)
  have b8 : f / 256 % 256 < 256 := Nat.mod_lt _ (by norm_num)
  have b0 : f % 256 < 256 := Nat.mod_lt _ (by norm_num)
  obtain ⟨l24, v24, m24⟩ := fmt02x_byte_spec _ b24
  obtain ⟨l16, v16, m16⟩ := fmt02x_byte_spec _ b16
  obtain ⟨l8, v8, m8⟩ := fmt02x_byte_spec _ b8
  obtain ⟨l0, v0, m0⟩ := fmt02x_byte_spec _ b0
  unfold encode_time
  rw [h24, h16, h8, h0]
  refine ⟨?_, ?_, ?_⟩
  · simp [l24, l16, l8, l0]
  · intro c hc
    rcases List.mem_append.mp hc with hc | hc
    · rcases List.mem_append.mp hc with hc | hc
      · rcases List.mem_append.mp hc with hc | hc
        · exact m24 c hc
        · exact m16 c hc
      · exact m8 c hc
    · exact m0 c hc
  · rw [hexVal_append, hexVal_append, hexVal_append, l16, l8, l0, v24, v16, v8, v0]
    omega

/-- Length of the no-padding base64 encoding. -/
theorem base64Chars_length (l : List Nat) :
    (base64Chars l).length =
      4 * (l.length / 3) + (if l.length % 3 = 0 then 0 else l.length % 3 + 1) := by
  induction l using base64Chars.induct with
  | case1 a b c rest ih =>
    simp only [base64Chars, List.length_cons, ih]
    split_ifs <;> omega
  | case2 a b => simp [base64Chars]
  | case3 a => simp [base64Chars]
  | case4 => simp [base64Chars]

/-- SHA-256 digests have 32 bytes. -/
theorem sha256_length (msg : List Nat) : (sha256 msg).length = 32 := by
  simp [sha256, Sha256State.bytes, wordBE]

/-- The no-padding base64 encoding of a SHA-256 digest has 43 characters. -/
theorem base64_sha256_length (msg : List Nat) :
    (base64NoPad (sha256 msg)).length = 43 := by
  unfold base64NoPad
  rw [base64Chars_length, sha256_length]
  decide

/- ===================== claims C6 and C8 ====================== -/

/-- C6 (amended): `calc_queries` emits exactly `shard` queries per bucket;
the shard-`i` query has hash value `"{i:02}:{hash_key}:logs:{label}"`, range
value prefix the standard-alphabet no-padding base64 of SHA-256 of the
value — 43 base64 characters, not 44 — followed by a NUL byte, empty range
value start, and the value as the equality constraint. -/
theorem c6_calc_queries (shard : Nat) (buckets : List Bucket) (kv : KeyValue) :
    (calc_queries shard buckets kv).length = buckets.length * shard ∧
    (∀ q ∈ calc_queries shard buckets kv, ∃ b ∈ buckets, ∃ i < shard,
      q = { table_name := b.table_name
            hash_value := fmt02 i ++ str (":") ++ b.hash_key ++ str (":logs:") ++ kv.key
            range_value_prefix := base64NoPad (sha256 (utf8Bytes kv.value)) ++ ['\x00']
            range_value_start := []
            value_equal := kv.value }) ∧
    (∀ b ∈ buckets, ∀ i < shard,
      ({ table_name := b.table_name
         hash_value := fmt02 i ++ str (":") ++ b.hash_key ++ str (":logs:") ++ kv.key
         range_value_prefix := base64NoPad (sha256 (utf8Bytes kv.value)) ++ ['\x00']
         range_value_start := []
         value_equal := kv.value } : Query) ∈ calc_queries shard buckets kv) ∧
    (base64NoPad (sha256 (utf8Bytes kv.value))).length = 43 := by
  refine ⟨?_, ?_, ?_, base64_sha256_length _⟩
  · induction buckets with
    | nil => simp [calc_queries]
    | cons b bs ih =>
      simp only [calc_queries, List.flatMap_cons, List.length_append,
        List.length_map, List.length_range, List.length_cons] at ih ⊢
      rw [ih]
      ring
  · intro q hq
    simp only [calc_queries, List.mem_flatMap, List.mem_map, List.mem_range] at hq
    obtain ⟨b, hb, i, hi, rfl⟩ := hq
    exact ⟨b, hb, i, hi, rfl⟩
  · intro b hb i hi
    simp only [calc_queries, List.mem_flatMap, List.mem_map, List.mem_range]
    exact ⟨b, hb, i, hi, rfl⟩

/-- C6 witness: the query characterization applied to one bucket, one shard
and the predicate `app=nginx`. -/
theorem c6_witness :
    c6Bucket ∈ [c6Bucket] ∧ (0 : Nat) < 1 ∧
    ({ table_name := c6Bucket.table_name
       hash_value := fmt02 0 ++ str (":") ++ c6Bucket.hash_key ++ str (":logs:") ++
         (⟨str ("app"), str ("nginx")⟩ : KeyValue).key
       range_value_prefix :=
         base64NoPad (sha256 (utf8Bytes (⟨str ("app"), str ("nginx")⟩ : KeyValue).value)) ++ ['\x00']
       range_value_start := []
       value_equal := (⟨str ("app"), str ("nginx")⟩ : KeyValue).value } : Query) ∈
      calc_queries 1 [c6Bucket] ⟨str ("app"), str ("nginx")⟩ ∧
    (calc_queries 1 [c6Bucket] ⟨str ("app"), str ("nginx")⟩).length = [c6Bucket].length * 1 :=
  ⟨by decide, by decide,
   (c6_calc_queries 1 [c6Bucket] ⟨str ("app"), str ("nginx")⟩).2.2.1 c6Bucket (by decide)
     0 (by decide),
   (c6_calc_queries 1 [c6Bucket] ⟨str ("app"), str ("nginx")⟩).1⟩

/-- C6 counterexample: the base64 part of the range value prefix for the
value `"nginx"` has 43 characters, not the 44 the claim states. -/
theorem c6_counterexample :
    ¬ ((base64NoPad (sha256 (utf8Bytes (str ("nginx"))))).length = 44) := by
  rw [base64_sha256_length]
  omega

/-- C8: `calc_queries_for_serires` emits exactly one query per bucket and
series id, with hash value `"{hash_key}:{id}"` (no shard prefix, no
`:logs:` segment), empty range value prefix and value-equal constraint, and
range value start the eight-lowercase-hex-character big-endian
representation of the bucket's `u32` `from` field. -/
theorem c8_queries_for_series (buckets : List Bucket) (series_ids : List Str) :
    (calc_queries_for_serires buckets series_ids).length =
      buckets.length * series_ids.length ∧
    (∀ q ∈ calc_queries_for_serires buckets series_ids, ∃ b ∈ buckets, ∃ s ∈ series_ids,
      q = { table_name := b.table_name
            hash_value := b.hash_key ++ str (":") ++ s
            range_value_prefix := []
            range_value_start := encode_time b.from_ms
            value_equal := [] }) ∧
    (∀ b ∈ buckets, ∀ s ∈ series_ids,
      ({ table_name := b.table_name
         hash_value := b.hash_key ++ str (":") ++ s
         range_value_prefix := []
         range_value_start := encode_time b.from_ms
         value_equal := [] } : Query) ∈ calc_queries_for_serires buckets series_ids) ∧
    (∀ f : Nat, (encode_time f).length = 8 ∧ (∀ c ∈ encode_time f, c ∈ lowerHexDigits) ∧
      hexVal (encode_time f) = f % 4294967296) := by
  refine ⟨?_, ?_, ?_, encode_time_spec⟩
  · induction buckets with
    | nil => simp [calc_queries_for_serires]
    | cons b bs ih =>
      simp only [calc_queries_for_serires, List.flatMap_cons, List.length_append,
        List.length_map, List.length_cons] at ih ⊢
      rw [ih]
      ring
  · intro q hq
    simp only [calc_queries_for_serires, List.mem_flatMap, List.mem_map] at hq
    obtain ⟨b, hb, s, hs, rfl⟩ := hq
    exact ⟨b, hb, s, hs, rfl⟩
  · intro b hb s hs
    simp only [calc_queries_for_serires, List.mem_flatMap, List.mem_map]
    exact ⟨b, hb, s, hs, rfl⟩

/-- C8 witness: the characterization applied to one bucket with
`from = 0x12345678` and one series id. -/
theorem c8_witness :
    c8Bucket ∈ [c8Bucket] ∧ str ("sid") ∈ [str ("sid")] ∧
    ({ table_name := c8Bucket.table_name
       hash_value := c8Bucket.hash_key ++ str (":") ++ str ("sid")
       range_value_prefix := []
       range_value_start := encode_time c8Bucket.from_ms
       value_equal := [] } : Query) ∈ calc_queries_for_serires [c8Bucket] [str ("sid")] ∧
    (calc_queries_for_serires [c8Bucket] [str ("sid")]).length =
      [c8Bucket].length * [str ("sid")].length :=
  ⟨by decide, by decide,
   (c8_queries_for_series [c8Bucket] [str ("sid")]).2.2.1 c8Bucket (by decide)
     (str ("sid")) (by decide),
   (c8_queries_for_series [c8Bucket] [str ("sid")]).1⟩

/- ===================== claim C9 ====================== -/

/-- C9: a chunk reference appears in the result of the parsing loop exactly
when some input string parses to it and its `[from, to]` interval overlaps
the query range (it is dropped iff `to < startMs` or `from > endMs`); and
the series-id string format parses as
`"{tenant}/{fingerprint_hex}:{from_hex}:{to_hex}:{checksum_hex}"`. -/
theorem c9_chunk_ref_filter :
    (∀ (rs : List Str) (startMs endMs : Int) (l : List ChunkRef),
      chunkRefLoop rs startMs endMs = .ok l →
      ∀ c : ChunkRef, (c ∈ l ↔ ∃ r ∈ rs, parseChunkRefStep r = .ok c ∧
        ¬ (c.to_ms < startMs ∨ c.from_ms > endMs))) ∧
    parseChunkRefStep (str ("fake/1a2b3c:1900:1a00:deadbeef")) =
      .ok { user_id := str ("fake"), fingerprint := 0x1a2b3c, from_ms := 0x1900,
            to_ms := 0x1a00, checksum := 0xdeadbeef } := by
  constructor
  · intro rs
    induction rs with
    | nil =>
      intro s e l hl c
      simp only [chunkRefLoop] at hl
      injection hl with hl
      subst hl
      simp
    | cons r rest ih =>
      intro s e l hl c
      simp only [chunkRefLoop] at hl
      split at hl
      next er hp =>
        exact absurd hl (by simp)
      next c0 hp =>
        by_cases hskip : c0.to_ms < s ∨ c0.from_ms > e
        · rw [if_pos hskip] at hl
          have h2 := ih s e l hl c
          constructor
          · intro hc
            obtain ⟨q, hq, hpq, hov⟩ := h2.mp hc
            exact ⟨q, List.mem_cons_of_mem _ hq, hpq, hov⟩
          · rintro ⟨q, hq, hpq, hov⟩
            rcases List.mem_cons.mp hq with rfl | hq
            · rw [hp] at hpq
              injection hpq with h
              subst h
              exact absurd hskip hov
            · exact h2.mpr ⟨q, hq, hpq, hov⟩
        · rw [if_neg hskip] at hl
          split at hl
          next e0 hrec =>
            exact absurd hl (by simp)
          next tail hrec =>
            injection hl with hl
            subst hl
            have h2 := ih s e tail hrec c
            constructor
            · intro hc
              rcases List.mem_cons.mp hc with rfl | hc
              · exact ⟨r, List.mem_cons_self _ _, hp, hskip⟩
              · obtain ⟨q, hq, hpq, hov⟩ := h2.mp hc
                exact ⟨q, List.mem_cons_of_mem _ hq, hpq, hov⟩
            · rintro ⟨q, hq, hpq, hov⟩
              rcases List.mem_cons.mp hq with rfl | hq
              · rw [hp] at hpq
                injection hpq with h
                subst h
                exact List.mem_cons_self _ _
              · exact List.mem_cons_of_mem _ (h2.mpr ⟨q, hq, hpq, hov⟩)
  · rfl

/-- C9 witness: the membership characterization applied to a single
well-formed chunk id overlapping the query range. -/
theorem c9_witness :
    chunkRefLoop [str ("fake/1a2b3c:1900:1a00:deadbeef")] 6144 8192 =
      .ok [⟨str ("fake"), 1715004, 6400, 6656, 3735928559⟩] ∧
    ((⟨str ("fake"), 1715004, 6400, 6656, 3735928559⟩ : ChunkRef) ∈
        [(⟨str ("fake"), 1715004, 6400, 6656, 3735928559⟩ : ChunkRef)] ↔
      ∃ r ∈ [str ("fake/1a2b3c:1900:1a00:deadbeef")],
        parseChunkRefStep r = .ok ⟨str ("fake"), 1715004, 6400, 6656, 3735928559⟩ ∧
        ¬ ((6656 : Int) < 6144 ∨ (6400 : Int) > 8192)) :=
  ⟨by rfl,
   c9_chunk_ref_filter.1 [str ("fake/1a2b3c:1900:1a00:deadbeef")] 6144 8192
     [⟨str ("fake"), 1715004, 6400, 6656, 3735928559⟩] (by rfl)
     ⟨str ("fake"), 1715004, 6400, 6656, 3735928559⟩⟩

/- ===================== claim C7 ====================== -/

/-- For a non-negative millisecond timestamp, the source's day computation
(chrono floor to seconds, then truncating `i64` division by 86400) equals
floor division of the milliseconds by 86400000. -/
theorem day_conv (x : Int) (hx : 0 ≤ x) :
    Int.tdiv (Int.fdiv x 1000) 86400 = x / 86400000 := by
  rw [Int.fdiv_eq_ediv _ (by norm_num)]
  rw [Int.tdiv_eq_ediv (Int.ediv_nonneg hx (by norm_num)) (by norm_num)]
  omega

/-- Length of the bucket list for a non-negative time range. -/
theorem get_buckets_length (tenant : Str) (startMs endMs : Int)
    (h0 : 0 ≤ startMs) (h1 : startMs ≤ endMs) :
    (get_buckets tenant startMs endMs).length =
      (endMs / 86400000 - startMs / 86400000 + 1).toNat := by
  simp only [get_buckets, List.length_map, List.length_range,
    day_conv startMs h0, day_conv endMs (le_trans h0 h1)]

/-- The fields of the `i`-th bucket of `get_buckets`, in closed form, for a
non-negative time range. -/
theorem get_buckets_fields (tenant : Str) (startMs endMs : Int)
    (h0 : 0 ≤ startMs) (h1 : startMs ≤ endMs) (i : Nat)
    (hi : i < (get_buckets tenant startMs endMs).length) :
    ((get_buckets tenant startMs endMs)[i].from_ms : Int) =
      max 0 (startMs - (startMs / 86400000 + i) * 86400000) ∧
    ((get_buckets tenant startMs endMs)[i].through : Int) =
      min 86400000 (endMs - (startMs / 86400000 + i) * 86400000) ∧
    (get_buckets tenant startMs endMs)[i].table_name =
      str ("index_") ++ intToChars (startMs / 86400000 + i) ∧
    (get_buckets tenant startMs endMs)[i].hash_key =
      tenant ++ str (":d") ++ intToChars (startMs / 86400000 + i) := by
  have h0e : 0 ≤ endMs := le_trans h0 h1
  have hi2 := hi
  simp only [get_buckets, List.length_map, List.length_range,
    day_conv startMs h0, day_conv endMs h0e] at hi2
  simp only [get_buckets, List.getElem_map, List.getElem_range,
    day_conv startMs h0, day_conv endMs h0e]
  refine ⟨by omega, by omega, trivial, trivial⟩

/-- C7 (amended): for `0 ≤ start ≤ end`, `get_buckets` produces one bucket
per day number `d` in `[start / 86400000, end / 86400000]` with table name
`"index_{d}"` and hash key `"{tenant}:d{d}"`, the day-relative `from`/
`through` offsets lie in `[0, 86400000]`, the buckets cover exactly the
milliseconds of `[start, end]`, and two buckets only ever share a single
day-boundary millisecond (consecutive days).  (For a negative `start` the
source's truncating division deviates from the claimed floor: see the
counterexample.) -/
theorem c7_get_buckets (tenant : Str) (startMs endMs : Int)
    (h0 : 0 ≤ startMs) (h1 : startMs ≤ endMs) :
    (get_buckets tenant startMs endMs).length =
      (endMs / 86400000 - startMs / 86400000 + 1).toNat ∧
    (∀ i, ∀ hi : i < (get_buckets tenant startMs endMs).length,
      (get_buckets tenant startMs endMs)[i].table_name =
        str ("index_") ++ intToChars (startMs / 86400000 + i) ∧
      (get_buckets tenant startMs endMs)[i].hash_key =
        tenant ++ str (":d") ++ intToChars (startMs / 86400000 + i) ∧
      (get_buckets tenant startMs endMs)[i].from_ms ≤
        (get_buckets tenant startMs endMs)[i].through ∧
      (get_buckets tenant startMs endMs)[i].through ≤ 86400000) ∧
    (∀ m : Int, (startMs ≤ m ∧ m ≤ endMs) ↔
      ∃ i, ∃ hi : i < (get_buckets tenant startMs endMs).length,
        (startMs / 86400000 + i) * 86400000 +
            ((get_buckets tenant startMs endMs)[i].from_ms : Int) ≤ m ∧
        m ≤ (startMs / 86400000 + i) * 86400000 +
            ((get_buckets tenant startMs endMs)[i].through : Int)) ∧
    (∀ i j, ∀ hi : i < (get_buckets tenant startMs endMs).length,
      ∀ hj : j < (get_buckets tenant startMs endMs).length, i < j → ∀ m : Int,
      (startMs / 86400000 + i) * 86400000 +
          ((get_buckets tenant startMs endMs)[i].from_ms : Int) ≤ m →
      m ≤ (startMs / 86400000 + i) * 86400000 +
          ((get_buckets tenant startMs endMs)[i].through : Int) →
      (startMs / 86400000 + j) * 86400000 +
          ((get_buckets tenant startMs endMs)[j].from_ms : Int) ≤ m →
      m ≤ (startMs / 86400000 + j) * 86400000 +
          ((get_buckets tenant startMs endMs)[j].through : Int) →
      j = i + 1 ∧ m = (startMs / 86400000 + j) * 86400000) := by
  have hlen := get_buckets_length tenant startMs endMs h0 h1
  refine ⟨hlen, ?_, ?_, ?_⟩
  · intro i hi
    obtain ⟨hf, ht, htn, hhk⟩ := get_buckets_fields tenant startMs endMs h0 h1 i hi
    have hi' : (i : Int) ≤ endMs / 86400000 - startMs / 86400000 := by
      rw [hlen] at hi
      omega
    exact ⟨htn, hhk, by omega, by omega⟩
  · intro m
    constructor
    · rintro ⟨hm1, hm2⟩
      have hd1 : startMs / 86400000 ≤ m / 86400000 := by omega
      have hd2 : m / 86400000 ≤ endMs / 86400000 := by omega
      have hib : (m / 86400000 - startMs / 86400000).toNat <
          (get_buckets tenant startMs endMs).length := by
        rw [hlen]
        omega
      obtain ⟨hf, ht, htn, hhk⟩ :=
        get_buckets_fields tenant startMs endMs h0 h1 _ hib
      exact ⟨(m / 86400000 - startMs / 86400000).toNat, hib, by omega, by omega⟩
    · rintro ⟨i, hi, hc1, hc2⟩
      have hi' : (i : Int) ≤ endMs / 86400000 - startMs / 86400000 := by
        rw [hlen] at hi
        omega
      obtain ⟨hf, ht, htn, hhk⟩ := get_buckets_fields tenant startMs endMs h0 h1 i hi
      rw [hf] at hc1
      rw [ht] at hc2
      exact ⟨by omega, by omega⟩
  · intro i j hi hj hij m hci1 hci2 hcj1 hcj2
    have hi' : (i : Int) ≤ endMs / 86400000 - startMs / 86400000 := by
      rw [hlen] at hi
      omega
    have hj' : (j : Int) ≤ endMs / 86400000 - startMs / 86400000 := by
      rw [hlen] at hj
      omega
    obtain ⟨hfi, hti, _, _⟩ := get_buckets_fields tenant startMs endMs h0 h1 i hi
    obtain ⟨hfj, htj, _, _⟩ := get_buckets_fields tenant startMs endMs h0 h1 j hj
    rw [hfi] at hci1
    rw [hti] at hci2
    rw [hfj] at hcj1
    rw [htj] at hcj2
    exact ⟨by omega, by omega⟩

/-- C7 witness: the bucket decomposition theorem applied to the range from
the epoch to two full days later. -/
theorem c7_witness :
    ((0 : Int) ≤ 0) ∧ ((0 : Int) ≤ 172800000) ∧
    (get_buckets (str ("fake")) 0 172800000).length =
      ((172800000 : Int) / 86400000 - (0 : Int) / 86400000 + 1).toNat :=
  ⟨le_refl 0, by decide, (c7_get_buckets (str ("fake")) 0 172800000 (by decide) (by decide)).1⟩

/-- C7 counterexample: for the range from 1000 ms before the epoch to the
epoch, the claimed day interval is `[-1, 0]` (the floor of -1 seconds over
86400), but the source's truncating division starts at day 0: only one
bucket is produced and no bucket is named `"index_-1"`, so the millisecond
-500 of the range is covered by no bucket. -/
theorem c7_counterexample :
    Int.fdiv (Int.fdiv (-1000) 1000) 86400 = -1 ∧
    (get_buckets (str ("fake")) (-1000) 0).length = 1 ∧
    ∀ b ∈ get_buckets (str ("fake")) (-1000) 0,
      b.table_name ≠ str ("index_") ++ intToChars (-1) := by
  refine ⟨by decide, by decide, by decide⟩
